import Mathlib

/-!
Verification development for the ccxt pro streaming adapters in this
repository (`src/dist/cjs/src/pro/bybit.js`, the hitbtc and bingx pro
modules, and `src/js/src/pro/luno.d.ts`).

The order-book side storage, the bounded caches (`ArrayCache`,
`ArrayCacheByTimestamp`) and the ws `Client` (futures / subscriptions /
frame sending) live in the library's `base/ws` layer, which is not part of
the sources here; those parts are modelled from the spec and are marked
`Modelled from the spec:` in their doc comments.  Everything else is a
direct translation of the adapter code.

Numeric fields (prices, amounts) are modelled as rationals, timestamps as
integers.
-/

namespace CcxtPro

/-- A price level: (price, amount). -/
abbrev BidAsk := ℚ × ℚ

/-- Modelled from the spec: the `base/ws/OrderBook.js` side storage is not in
the sources.  Removing a price level keeps every entry whose price differs
("an amount of zero in a delta means remove this price level"). -/
def removeLevel (side : List BidAsk) (price : ℚ) : List BidAsk :=
  side.filter (fun l => l.1 ≠ price)

/-- Modelled from the spec: insert-or-replace a level on the bid side, which
is kept in descending price order with no two entries sharing a price. -/
def insertBid (side : List BidAsk) (price amount : ℚ) : List BidAsk :=
  match side with
  | [] => [(price, amount)]
  | l :: rest =>
    if l.1 = price then (price, amount) :: rest
    else if price < l.1 then l :: insertBid rest price amount
    else (price, amount) :: l :: rest

/-- Modelled from the spec: insert-or-replace a level on the ask side, which
is kept in ascending price order with no two entries sharing a price. -/
def insertAsk (side : List BidAsk) (price amount : ℚ) : List BidAsk :=
  match side with
  | [] => [(price, amount)]
  | l :: rest =>
    if l.1 = price then (price, amount) :: rest
    else if l.1 < price then l :: insertAsk rest price amount
    else (price, amount) :: l :: rest

/-- Modelled from the spec: `bookside.store (price, amount)` on the bid side
("amount of zero removes the price level; nonzero amount
inserts-or-replaces", bids descending). -/
def bidsStore (side : List BidAsk) (price amount : ℚ) : List BidAsk :=
  if amount = 0 then removeLevel side price else insertBid side price amount

/-- Modelled from the spec: `bookside.store (price, amount)` on the ask side
(asks ascending). -/
def asksStore (side : List BidAsk) (price amount : ℚ) : List BidAsk :=
  if amount = 0 then removeLevel side price else insertAsk side price amount

/-- `handleDelta (bookside, delta)` from the adapters: parse the delta as a
(price, amount) pair and store it into the side
(bybit: `parseBidAsk (delta, 0, 1)` then `bookside.storeArray (bidAsk)`;
hitbtc: `safeNumber (delta, 0)`, `safeNumber (delta, 1)` then
`bookside.store (price, amount)`).  The store function for the side is
passed explicitly (bid or ask variant). -/
def handleDelta (store : List BidAsk → ℚ → ℚ → List BidAsk)
    (bookside : List BidAsk) (delta : BidAsk) : List BidAsk :=
  store bookside delta.1 delta.2

/-- `handleDeltas (bookside, deltas)`: left-to-right loop of `handleDelta`. -/
def handleDeltas (store : List BidAsk → ℚ → ℚ → List BidAsk)
    (bookside : List BidAsk) (deltas : List BidAsk) : List BidAsk :=
  deltas.foldl (handleDelta store) bookside

-- sanity checks on the spec's worked example
example :
    handleDeltas bidsStore [(100, 1), (99, 2)] [(99, 0), (98, 5)] =
      [(100, 1), (98, 5)] := by decide

/-- An order book as stored in `this.orderbooks[symbol]`: two depth-ordered
sides, a timestamp and a nonce (sequence number). -/
structure Book where
  bids : List BidAsk
  asks : List BidAsk
  timestamp : Option ℤ
  nonce : Option ℤ
deriving Repr, DecidableEq

/-- `this.orderBook ()`: a fresh empty order book. -/
def orderBook : Book :=
  { bids := [], asks := [], timestamp := none, nonce := none }

/-- The fields of a bybit `orderbook.*` ws message that `handleOrderBook`
can see, with bid/ask arrays already parsed to (price, amount) pairs:
`type`, `ts`, and under `data`: `s` (market id), `b`, `a`, `u`, `seq`. -/
structure ObMessage where
  type : String
  s : String
  b : List BidAsk
  a : List BidAsk
  ts : ℤ
  u : Option ℤ
  seq : Option ℤ
deriving Repr, DecidableEq

/-- Modelled from the spec: the `safeMarket` id-to-symbol normalization is an
out-of-scope collaborator ("market lookup by id"); modelled as the identity
on identifiers. -/
def safeSymbol (marketId : String) : String := marketId

/-- Store a book under a symbol in the `this.orderbooks` map. -/
def setBook (books : List (String × Book)) (symbol : String) (bk : Book) :
    List (String × Book) :=
  (symbol, bk) :: books.filter (fun p => p.1 ≠ symbol)

/-- Modelled from the spec: `parseOrderBook (data, symbol, timestamp, 'b', 'a')`
followed by `orderbook.reset (snapshot)` (both in the out-of-scope base
layer) rebuild the two depth-ordered sides entirely from the snapshot's
arrays.  `parseOrderBook` is handed only the bid and ask keys, so the
resulting book's nonce is left unset. -/
def resetFromSnapshot (msg : ObMessage) : Book :=
  { bids := msg.b.foldl (fun s l => bidsStore s l.1 l.2) []
    asks := msg.a.foldl (fun s l => asksStore s l.1 l.2) []
    timestamp := some msg.ts
    nonce := none }

/-- `handleOrderBook (client, message)` from `src/dist/cjs/src/pro/bybit.js`
(lines 522-593), acting on the `this.orderbooks` map: look up the prior book
(or create a fresh one), then either reset from the snapshot or apply the
deltas (asks first, then bids, as in the source) and update the timestamp;
finally store the book back under the symbol. -/
def handleOrderBook (books : List (String × Book)) (msg : ObMessage) :
    List (String × Book) :=
  let symbol := safeSymbol msg.s
  let orderbook := (books.lookup symbol).getD orderBook
  let orderbook :=
    if msg.type = "snapshot" then
      resetFromSnapshot msg
    else
      { orderbook with
          asks := handleDeltas asksStore orderbook.asks msg.a
          bids := handleDeltas bidsStore orderbook.bids msg.b
          timestamp := some msg.ts }
  setBook books symbol orderbook

/-- Modelled from the spec: `ArrayCache` from `base/ws/Cache.js` is not in
the sources.  A bounded, insertion-ordered cache: "drop-oldest when capacity
exceeded, no dedup by id". -/
structure ArrayCache (α : Type) where
  maxSize : ℕ
  data : List α
deriving Repr, DecidableEq

/-- Modelled from the spec: `append (item)` "always appends, evicts oldest
on overflow". -/
def ArrayCache.append {α : Type} (c : ArrayCache α) (x : α) : ArrayCache α :=
  let d := c.data ++ [x]
  { c with data := if c.maxSize < d.length then d.tail else d }

/-- `handleTrades` (bybit lines 675-687, hitbtc part_001 lines 561-574)
restricted to its cache mutation: each parsed trade of the message is
appended to the symbol's `ArrayCache` in order. -/
def handleTrades {α : Type} (stored : ArrayCache α) (trades : List α) :
    ArrayCache α :=
  trades.foldl ArrayCache.append stored

/-- A parsed OHLCV candle `[start, open, high, low, close, volume]` as built
by `parseWsOHLCV`. -/
structure Candle where
  start : ℤ
  o : ℚ
  h : ℚ
  l : ℚ
  c : ℚ
  v : ℚ
deriving Repr, DecidableEq

/-- Modelled from the spec: `ArrayCacheByTimestamp` from `base/ws/Cache.js`
is not in the sources.  A bounded cache of candles ordered by open
timestamp. -/
structure ArrayCacheByTimestamp where
  maxSize : ℕ
  data : List Candle
deriving Repr, DecidableEq

/-- Modelled from the spec: `appendOrReplaceLast (candle)` "compares the new
candle's timestamp to the last stored candle's timestamp — equal timestamps
replace, greater timestamps append (and evict if over capacity), lesser
timestamps are rejected as out-of-order (log/ignore, never insert out of
order)". -/
def ArrayCacheByTimestamp.append (cache : ArrayCacheByTimestamp)
    (x : Candle) : ArrayCacheByTimestamp :=
  match cache.data.getLast? with
  | none =>
      { cache with data := [x] }
  | some last =>
      if x.start = last.start then
        { cache with data := cache.data.dropLast ++ [x] }
      else if last.start < x.start then
        let d := cache.data ++ [x]
        { cache with data := if cache.maxSize < d.length then d.tail else d }
      else
        cache

/-- `handleOHLCV` (bybit lines 423-439, hitbtc part_001 lines 693-706)
restricted to its cache mutation: each parsed candle of the message is
appended to the symbol/timeframe `ArrayCacheByTimestamp` in order. -/
def handleOHLCV (stored : ArrayCacheByTimestamp) (candles : List Candle) :
    ArrayCacheByTimestamp :=
  candles.foldl ArrayCacheByTimestamp.append stored

/-- The parameters of the hitbtc `watchOrderBook` call that take part in
building the channel name (`src/unnamed/part_001` lines 202-224): the
optional string-valued entries of `params` at the keys the code reads, plus
the `speed` key the spec names. -/
structure ObParams where
  method : Option String
  defaultMethod : Option String
  depth : Option String
  speed : Option String
deriving Repr, DecidableEq

/-- The channel-name construction of hitbtc's `watchOrderBook`
(`src/unnamed/part_001` lines 202-224): `name` from
`safeString2 (params, 'method', 'defaultMethod', defaultMethod)`, `depth`
from `safeString (params, 'depth', '20')`, and `speed` from
`safeString (params, 'depth', '100')` — the source reads the `depth` key for
both — then the template substitution. -/
def watchOrderBookChannelName (optionsMethod : Option String)
    (params : ObParams) : String :=
  let defaultMethod := optionsMethod.getD "orderbook/full"
  let name := (params.method.or params.defaultMethod).getD defaultMethod
  let depth := params.depth.getD "20"
  let speed := params.depth.getD "100"
  if name = "orderbook/{depth}/{speed}" then
    "orderbook/D" ++ depth ++ "/" ++ speed ++ "ms"
  else if name = "orderbook/{depth}/{speed}/batch" then
    "orderbook/D" ++ depth ++ "/" ++ speed ++ "ms/batch"
  else if name = "orderbook/top/{speed}" then
    "orderbook/top/" ++ speed ++ "ms"
  else if name = "orderbook/top/{speed}/batch" then
    "orderbook/top/" ++ speed ++ "ms/batch"
  else
    name

/-- Modelled from the spec: the keyed bounded caches
(`ArrayCacheBySymbolById` for orders / positions / my-trades) from
`base/ws/Cache.js` are not in the sources.  Entries are keyed (by
symbol-and-id, modelled as one key string) and kept in insertion order. -/
structure ArrayCacheById (α : Type) where
  maxSize : ℕ
  data : List (String × α)
deriving Repr, DecidableEq

/-- Modelled from the spec: `upsert (item, key)` "replaces existing entry
sharing `key`, else appends, then evicts oldest on overflow"; replacement is
in place (update-in-place, no reordering). -/
def ArrayCacheById.upsert {α : Type} (c : ArrayCacheById α) (k : String)
    (x : α) : ArrayCacheById α :=
  if (c.data.lookup k).isSome then
    { c with data := c.data.map (fun p => if p.1 = k then (k, x) else p) }
  else
    let d := c.data ++ [(k, x)]
    { c with data := if c.maxSize < d.length then d.tail else d }

/-- Strictly descending price order with no duplicate price (the bid-side
invariant). -/
def sortedDesc (side : List BidAsk) : Prop :=
  side.Pairwise (fun x y => y.1 < x.1)

/-- Strictly ascending price order with no duplicate price (the ask-side
invariant). -/
def sortedAsc (side : List BidAsk) : Prop :=
  side.Pairwise (fun x y => x.1 < y.1)

instance (side : List BidAsk) : Decidable (sortedDesc side) :=
  inferInstanceAs (Decidable (side.Pairwise _))

instance (side : List BidAsk) : Decidable (sortedAsc side) :=
  inferInstanceAs (Decidable (side.Pairwise _))

/-- The errors thrown by the handlers, by class, carrying the feedback
string built at the throw site. -/
inductive WsError
  | authenticationError (feedback : String)
  | exchangeError (feedback : String)
deriving Repr, DecidableEq

/-- Whether an error is an `AuthenticationError`
(`error instanceof errors.AuthenticationError`). -/
def WsError.isAuthentication : WsError → Bool
  | .authenticationError _ => true
  | .exchangeError _ => false

/-- The state of one pending future: unresolved, resolved with `true`
(the only value the auth handshake resolves with), or rejected. -/
inductive FutureState
  | pending
  | resolvedTrue
  | rejected (e : WsError)
deriving Repr, DecidableEq

/-- The outbound frames the modelled code sends. -/
inductive Frame
  | auth (apiKey expires signature : String)
  | subscribe (topics : List String)
deriving Repr, DecidableEq

/-- Modelled from the spec: the ws `Client` from `base/ws/Client.js` is not
in the sources.  Per connection: the `subscriptions` map (modelled by its
key set), the `futures` map from message hash to a future, the state of
every future ever allocated (by id), and the log of sent frames. -/
structure WsClient where
  subscriptions : List String
  futures : List (String × ℕ)
  states : List (ℕ × FutureState)
  nextId : ℕ
  sent : List Frame
deriving Repr, DecidableEq

/-- The state of the future with the given id (newest binding wins). -/
def WsClient.stateOf (cl : WsClient) (fid : ℕ) : Option FutureState :=
  cl.states.lookup fid

/-- Modelled from the spec: `client.future (messageHash)` returns the
connection's future for that hash, creating a fresh pending one if none is
registered, so that "concurrent callers before completion share the same
pending future". -/
def WsClient.future (cl : WsClient) (hash : String) : WsClient × ℕ :=
  match cl.futures.lookup hash with
  | some fid => (cl, fid)
  | none =>
      ({ cl with
          futures := (hash, cl.nextId) :: cl.futures
          states := (cl.nextId, .pending) :: cl.states
          nextId := cl.nextId + 1 }, cl.nextId)

/-- Modelled from the spec: `future.resolve (true)` on the future cached
under a hash — "resolve the future with `true` and cache the resolved state
on the connection".  The `futures` entry is kept. -/
def WsClient.resolveTrue (cl : WsClient) (hash : String) : WsClient :=
  match cl.futures.lookup hash with
  | none => cl
  | some fid => { cl with states := (fid, .resolvedTrue) :: cl.states }

/-- Modelled from the spec: `client.reject (error, messageHash)` rejects the
future registered under that hash, for every caller holding it, and removes
it from `futures` so a later `client.future` call starts afresh. -/
def WsClient.reject (cl : WsClient) (e : WsError) (hash : String) : WsClient :=
  match cl.futures.lookup hash with
  | none => cl
  | some fid =>
      { cl with
          futures := cl.futures.filter (fun p => p.1 ≠ hash)
          states := (fid, .rejected e) :: cl.states }

/-- Modelled from the spec: `client.reject (error)` with no message hash
"rejects every Pending Future registered on that connection". -/
def WsClient.rejectAll (cl : WsClient) (e : WsError) : WsClient :=
  { cl with
      futures := []
      states := cl.futures.map (fun p => (p.2, FutureState.rejected e)) ++ cl.states }

/-- Modelled from the spec: the frame-sending half of
`this.watch (url, messageHash, message, subscribeHash)` — if the subscribe
hash is already registered the frame is not re-sent (idempotent
re-subscription); otherwise register it and send. -/
def watch (cl : WsClient) (frame : Frame) (subscribeHash : String) : WsClient :=
  if subscribeHash ∈ cl.subscriptions then cl
  else
    { cl with
        subscriptions := subscribeHash :: cl.subscriptions
        sent := cl.sent ++ [frame] }

/-- Modelled from the spec: the HMAC-SHA256 hex signature is computed by the
out-of-scope signing layer; modelled as a formal (injective) tagging of
payload and secret. -/
def hmacHex (payload secret : String) : String :=
  "hmac-sha256(" ++ payload ++ "," ++ secret ++ ")"

/-- The credential/time inputs `authenticate` reads from the instance:
`this.apiKey`, `this.secret`, `this.milliseconds ()`. -/
structure AuthInput where
  apiKey : String
  secret : String
  milliseconds : ℤ
deriving Repr, DecidableEq

/-- `authenticate (url, params)` from `src/dist/cjs/src/pro/bybit.js`
(lines 1631-1653): obtain the shared `authenticated` future; if no
`authenticated` entry is in the connection's subscriptions, compute
`expires`, sign `'GET/realtime' + expires` with the secret, and send the
auth frame via `watch`; in every case return the shared future. -/
def authenticate (inp : AuthInput) (cl : WsClient) : WsClient × ℕ :=
  let messageHash := "authenticated"
  let (cl, future) := cl.future messageHash
  let authenticated := messageHash ∈ cl.subscriptions
  if authenticated then
    (cl, future)
  else
    let expires := toString (inp.milliseconds + 10000)
    let auth := "GET/realtime" ++ expires
    let signature := hmacHex auth inp.secret
    let request := Frame.auth inp.apiKey expires signature
    (watch cl request messageHash, future)

/-- The fields of an auth response that `handleAuthenticate` reads:
`safeValue (message, 'success')` and the `this.json (message)` rendering
used in the error feedback. -/
structure AuthResponse where
  success : Option Bool
  json : String
deriving Repr, DecidableEq

/-- `handleAuthenticate (client, message)` from
`src/dist/cjs/src/pro/bybit.js` (lines 1798-1821): on success resolve the
cached `authenticated` future with `true`; otherwise reject it with an
`AuthenticationError` and delete the `authenticated` entry from the
connection's subscriptions. -/
def handleAuthenticate (cl : WsClient) (msg : AuthResponse) : WsClient :=
  let messageHash := "authenticated"
  if msg.success = some true then
    cl.resolveTrue messageHash
  else
    let error := WsError.authenticationError ("bybit " ++ msg.json)
    let cl := cl.reject error messageHash
    { cl with subscriptions := cl.subscriptions.filter (fun s => s ≠ messageHash) }

/-- The fields of an inbound message that `handleErrorMessage` reads:
`safeString2 (message, 'code', 'ret_code')`, `safeValue (message,
'success')`, `safeString (message, 'ret_msg')`, the `op` of the echoed
`request`, and the `this.json (message)` rendering. -/
structure ErrMessage where
  code : Option String
  success : Option Bool
  ret_msg : Option String
  requestOp : Option String
  json : String
deriving Repr, DecidableEq

/-- The classes the exchange's error taxonomy can map a code to. -/
inductive ErrClass
  | authentication
  | exchange
deriving Repr, DecidableEq

/-- Build the thrown error of a class from its feedback string. -/
def ErrClass.mk : ErrClass → String → WsError
  | .authentication, s => .authenticationError s
  | .exchange, s => .exchangeError s

/-- The `try` body of `handleErrorMessage` (bybit lines 1654-1713): the
error it throws, if any.  `exact` is the exchange's `exceptions['exact']
table (modelled from the spec: the error-taxonomy table is an out-of-scope
collaborator mapping codes to error classes); a matched code throws that
class with the `this.id + ' ' + this.json (message)` feedback
(`throwExactlyMatchedException`).  Otherwise `success === false` throws an
`AuthenticationError` when the echoed request op is `auth`, else an
`ExchangeError`. -/
def decodeError (exact : String → Option ErrClass) (msg : ErrMessage) :
    Option WsError :=
  let fromCode : Option WsError :=
    match msg.code with
    | none => none
    | some c =>
        match exact c with
        | none => none
        | some cls => some (cls.mk ("bybit " ++ msg.json))
  match fromCode with
  | some e => some e
  | none =>
      if msg.success = some false then
        if msg.requestOp = some "auth" then
          some (.authenticationError ("Authentication failed: " ++ msg.ret_msg.getD ""))
        else
          some (.exchangeError ("bybit " ++ msg.ret_msg.getD ""))
      else
        none

/-- `handleErrorMessage (client, message)` from
`src/dist/cjs/src/pro/bybit.js` (lines 1654-1713): if the `try` body throws
an `AuthenticationError`, reject the `authenticated` hash and delete its
subscription entry; if it throws anything else, `client.reject (error)`
with no message hash; return whether an error was handled. -/
def handleErrorMessage (exact : String → Option ErrClass) (cl : WsClient)
    (msg : ErrMessage) : WsClient × Bool :=
  match decodeError exact msg with
  | none => (cl, false)
  | some e =>
      if e.isAuthentication then
        let messageHash := "authenticated"
        let cl := cl.reject e messageHash
        ({ cl with subscriptions := cl.subscriptions.filter (fun s => s ≠ messageHash) }, true)
      else
        (cl.rejectAll e, true)

section OrderBookSideLemmas

theorem insertBid_mem (p a : ℚ) :
    ∀ side : List BidAsk, sortedDesc side →
      ∀ l, l ∈ insertBid side p a ↔ l = (p, a) ∨ (l ∈ side ∧ l.1 ≠ p) := by
  intro side
  induction side with
  | nil =>
      intro _ l
      simp [insertBid]
  | cons hd rest ih =>
      intro hs l
      have hrest : sortedDesc rest := hs.of_cons
      have hhd : ∀ y ∈ rest, y.1 < hd.1 := (List.pairwise_cons.mp hs).1
      by_cases h1 : hd.1 = p
      · simp only [insertBid, if_pos h1]
        constructor
        · intro hmem
          rcases List.mem_cons.mp hmem with h | h
          · exact Or.inl h
          · refine Or.inr ⟨List.mem_cons_of_mem _ h, ?_⟩
            exact ne_of_lt (h1 ▸ hhd l h)
        · rintro (h | ⟨hmem, hne⟩)
          · exact h ▸ List.mem_cons_self _ _
          · rcases List.mem_cons.mp hmem with h | h
            · exact absurd (h ▸ h1) hne
            · exact List.mem_cons_of_mem _ h
      · by_cases h2 : p < hd.1
        · simp only [insertBid, if_neg h1, if_pos h2]
          constructor
          · intro hmem
            rcases List.mem_cons.mp hmem with h | h
            · exact Or.inr ⟨h ▸ List.mem_cons_self _ _, h ▸ h1⟩
            · rcases (ih hrest l).mp h with h' | ⟨h', hne⟩
              · exact Or.inl h'
              · exact Or.inr ⟨List.mem_cons_of_mem _ h', hne⟩
          · rintro (h | ⟨hmem, hne⟩)
            · exact List.mem_cons_of_mem _ ((ih hrest l).mpr (Or.inl h))
            · rcases List.mem_cons.mp hmem with h | h
              · exact h ▸ List.mem_cons_self _ _
              · exact List.mem_cons_of_mem _ ((ih hrest l).mpr (Or.inr ⟨h, hne⟩))
        · have h3 : hd.1 < p := lt_of_le_of_ne (not_lt.mp h2) h1
          simp only [insertBid, if_neg h1, if_neg h2]
          constructor
          · intro hmem
            rcases List.mem_cons.mp hmem with h | h
            · exact Or.inl h
            · refine Or.inr ⟨h, ?_⟩
              rcases List.mem_cons.mp h with h' | h'
              · exact h' ▸ h1
              · exact ne_of_lt (lt_trans (hhd l h') h3)
          · rintro (h | ⟨hmem, _⟩)
            · exact h ▸ List.mem_cons_self _ _
            · exact List.mem_cons_of_mem _ hmem

theorem insertBid_sorted (p a : ℚ) :
    ∀ side : List BidAsk, sortedDesc side → sortedDesc (insertBid side p a) := by
  intro side
  induction side with
  | nil =>
      intro _
      simp [insertBid, sortedDesc]
  | cons hd rest ih =>
      intro hs
      have hrest : sortedDesc rest := hs.of_cons
      have hhd : ∀ y ∈ rest, y.1 < hd.1 := (List.pairwise_cons.mp hs).1
      by_cases h1 : hd.1 = p
      · simp only [insertBid, if_pos h1]
        refine List.pairwise_cons.mpr ⟨?_, hrest⟩
        intro y hy
        exact h1 ▸ hhd y hy
      · by_cases h2 : p < hd.1
        · simp only [insertBid, if_neg h1, if_pos h2]
          refine List.pairwise_cons.mpr ⟨?_, ih hrest⟩
          intro y hy
          rcases (insertBid_mem p a rest hrest y).mp hy with h | ⟨h, _⟩
          · exact h ▸ h2
          · exact hhd y h
        · have h3 : hd.1 < p := lt_of_le_of_ne (not_lt.mp h2) h1
          simp only [insertBid, if_neg h1, if_neg h2]
          refine List.pairwise_cons.mpr ⟨?_, hs⟩
          intro y hy
          rcases List.mem_cons.mp hy with h | h
          · exact h ▸ h3
          · exact lt_trans (hhd y h) h3

theorem insertAsk_mem (p a : ℚ) :
    ∀ side : List BidAsk, sortedAsc side →
      ∀ l, l ∈ insertAsk side p a ↔ l = (p, a) ∨ (l ∈ side ∧ l.1 ≠ p) := by
  intro side
  induction side with
  | nil =>
      intro _ l
      simp [insertAsk]
  | cons hd rest ih =>
      intro hs l
      have hrest : sortedAsc rest := hs.of_cons
      have hhd : ∀ y ∈ rest, hd.1 < y.1 := (List.pairwise_cons.mp hs).1
      by_cases h1 : hd.1 = p
      · simp only [insertAsk, if_pos h1]
        constructor
        · intro hmem
          rcases List.mem_cons.mp hmem with h | h
          · exact Or.inl h
          · refine Or.inr ⟨List.mem_cons_of_mem _ h, ?_⟩
            exact (ne_of_lt (h1 ▸ hhd l h)).symm
        · rintro (h | ⟨hmem, hne⟩)
          · exact h ▸ List.mem_cons_self _ _
          · rcases List.mem_cons.mp hmem with h | h
            · exact absurd (h ▸ h1) hne
            · exact List.mem_cons_of_mem _ h
      · by_cases h2 : hd.1 < p
        · simp only [insertAsk, if_neg h1, if_pos h2]
          constructor
          · intro hmem
            rcases List.mem_cons.mp hmem with h | h
            · exact Or.inr ⟨h ▸ List.mem_cons_self _ _, h ▸ h1⟩
            · rcases (ih hrest l).mp h with h' | ⟨h', hne⟩
              · exact Or.inl h'
              · exact Or.inr ⟨List.mem_cons_of_mem _ h', hne⟩
          · rintro (h | ⟨hmem, hne⟩)
            · exact List.mem_cons_of_mem _ ((ih hrest l).mpr (Or.inl h))
            · rcases List.mem_cons.mp hmem with h | h
              · exact h ▸ List.mem_cons_self _ _
              · exact List.mem_cons_of_mem _ ((ih hrest l).mpr (Or.inr ⟨h, hne⟩))
        · have h3 : p < hd.1 := lt_of_le_of_ne (not_lt.mp h2) (fun h => h1 h.symm)
          simp only [insertAsk, if_neg h1, if_neg h2]
          constructor
          · intro hmem
            rcases List.mem_cons.mp hmem with h | h
            · exact Or.inl h
            · refine Or.inr ⟨h, ?_⟩
              rcases List.mem_cons.mp h with h' | h'
              · exact h' ▸ h1
              · exact (ne_of_lt (lt_trans h3 (hhd l h'))).symm
          · rintro (h | ⟨hmem, _⟩)
            · exact h ▸ List.mem_cons_self _ _
            · exact List.mem_cons_of_mem _ hmem

theorem insertAsk_sorted (p a : ℚ) :
    ∀ side : List BidAsk, sortedAsc side → sortedAsc (insertAsk side p a) := by
  intro side
  induction side with
  | nil =>
      intro _
      simp [insertAsk, sortedAsc]
  | cons hd rest ih =>
      intro hs
      have hrest : sortedAsc rest := hs.of_cons
      have hhd : ∀ y ∈ rest, hd.1 < y.1 := (List.pairwise_cons.mp hs).1
      by_cases h1 : hd.1 = p
      · simp only [insertAsk, if_pos h1]
        refine List.pairwise_cons.mpr ⟨?_, hrest⟩
        intro y hy
        exact h1 ▸ hhd y hy
      · by_cases h2 : hd.1 < p
        · simp only [insertAsk, if_neg h1, if_pos h2]
          refine List.pairwise_cons.mpr ⟨?_, ih hrest⟩
          intro y hy
          rcases (insertAsk_mem p a rest hrest y).mp hy with h | ⟨h, _⟩
          · exact h ▸ h2
          · exact hhd y h
        · have h3 : p < hd.1 := lt_of_le_of_ne (not_lt.mp h2) (fun h => h1 h.symm)
          simp only [insertAsk, if_neg h1, if_neg h2]
          refine List.pairwise_cons.mpr ⟨?_, hs⟩
          intro y hy
          rcases List.mem_cons.mp hy with h | h
          · exact h ▸ h3
          · exact lt_trans h3 (hhd y h)

theorem removeLevel_mem (side : List BidAsk) (p : ℚ) (l : BidAsk) :
    l ∈ removeLevel side p ↔ l ∈ side ∧ l.1 ≠ p := by
  simp [removeLevel]

theorem removeLevel_sortedDesc (side : List BidAsk) (p : ℚ)
    (hs : sortedDesc side) : sortedDesc (removeLevel side p) :=
  hs.sublist (List.filter_sublist side)

theorem removeLevel_sortedAsc (side : List BidAsk) (p : ℚ)
    (hs : sortedAsc side) : sortedAsc (removeLevel side p) :=
  hs.sublist (List.filter_sublist side)

end OrderBookSideLemmas

/-- C2: for every (price, amount) pair applied via `handleDelta` /
`handleDeltas`, an amount of zero removes the price level from the side, and
a nonzero amount inserts the level if absent or replaces it if present, with
bids kept in descending and asks in ascending price order; in particular the
delta `(99, 0), (98, 5)` on bids `[[100,1],[99,2]]` yields exactly
`[[100,1],[98,5]]`. -/
theorem handleDelta_store_semantics :
    (∀ (side : List BidAsk) (p a : ℚ), sortedDesc side →
        sortedDesc (bidsStore side p a) ∧
        (a = 0 → ∀ l, l ∈ bidsStore side p a ↔ l ∈ side ∧ l.1 ≠ p) ∧
        (a ≠ 0 → ∀ l, l ∈ bidsStore side p a ↔ l = (p, a) ∨ (l ∈ side ∧ l.1 ≠ p))) ∧
    (∀ (side : List BidAsk) (p a : ℚ), sortedAsc side →
        sortedAsc (asksStore side p a) ∧
        (a = 0 → ∀ l, l ∈ asksStore side p a ↔ l ∈ side ∧ l.1 ≠ p) ∧
        (a ≠ 0 → ∀ l, l ∈ asksStore side p a ↔ l = (p, a) ∨ (l ∈ side ∧ l.1 ≠ p))) ∧
    handleDeltas bidsStore [(100, 1), (99, 2)] [(99, 0), (98, 5)] =
      [(100, 1), (98, 5)] := by
  refine ⟨?_, ?_, by decide⟩
  · intro side p a hs
    refine ⟨?_, ?_, ?_⟩
    · by_cases ha : a = 0
      · simpa [bidsStore, ha] using removeLevel_sortedDesc side p hs
      · simpa [bidsStore, ha] using insertBid_sorted p a side hs
    · intro ha l
      simpa [bidsStore, ha] using removeLevel_mem side p l
    · intro ha l
      simpa [bidsStore, ha] using insertBid_mem p a side hs l
  · intro side p a hs
    refine ⟨?_, ?_, ?_⟩
    · by_cases ha : a = 0
      · simpa [asksStore, ha] using removeLevel_sortedAsc side p hs
      · simpa [asksStore, ha] using insertAsk_sorted p a side hs
    · intro ha l
      simpa [asksStore, ha] using removeLevel_mem side p l
    · intro ha l
      simpa [asksStore, ha] using insertAsk_mem p a side hs l

/-- Witness for C2: the theorem applied to bids `[[100,1],[99,2]]` and the
nonzero delta `(98, 5)`. -/
theorem handleDelta_store_semantics_witness :
    sortedDesc [((100 : ℚ), (1 : ℚ)), (99, 2)] ∧
    sortedDesc (bidsStore [(100, 1), (99, 2)] 98 5) ∧
    ((98 : ℚ), (5 : ℚ)) ∈ bidsStore [(100, 1), (99, 2)] 98 5 := by
  have h := handleDelta_store_semantics.1 [(100, 1), (99, 2)] 98 5 (by decide)
  exact ⟨by decide, h.1, (h.2.2 (by decide) (98, 5)).mpr (Or.inl rfl)⟩

/-- C3: a candle stored into an OHLCV cache replaces the last stored candle
when timestamps are equal, is appended when greater (evicting the oldest
entry when over capacity), and is never inserted when lesser; in particular
a candle at T with close 10 then an update at T with close 12 leaves exactly
one candle at T with close 12, and an update at T+60 appends a second
candle. -/
theorem ohlcv_append_replace :
    (∀ (cache : ArrayCacheByTimestamp) (x last : Candle),
        cache.data.getLast? = some last →
          (x.start = last.start →
            (cache.append x).data = cache.data.dropLast ++ [x]) ∧
          (last.start < x.start →
            (cache.append x).data =
              if cache.maxSize < (cache.data ++ [x]).length then
                (cache.data ++ [x]).tail
              else cache.data ++ [x]) ∧
          (x.start < last.start → cache.append x = cache)) ∧
    (∀ (cache : ArrayCacheByTimestamp) (x : Candle),
        1 ≤ cache.maxSize → cache.data.length ≤ cache.maxSize →
          (cache.append x).data.length ≤ cache.maxSize) ∧
    (handleOHLCV ⟨1000, []⟩
        [⟨1000, 1, 2, 3, 10, 4⟩, ⟨1000, 1, 2, 3, 12, 4⟩]).data =
      [⟨1000, 1, 2, 3, 12, 4⟩] ∧
    (handleOHLCV ⟨1000, []⟩
        [⟨1000, 1, 2, 3, 10, 4⟩, ⟨1000, 1, 2, 3, 12, 4⟩,
         ⟨1060, 1, 2, 3, 13, 4⟩]).data =
      [⟨1000, 1, 2, 3, 12, 4⟩, ⟨1060, 1, 2, 3, 13, 4⟩] := by
  refine ⟨?_, ?_, by decide, by decide⟩
  · intro cache x last h
    refine ⟨?_, ?_, ?_⟩
    · intro heq
      simp [ArrayCacheByTimestamp.append, h, heq]
    · intro hlt
      simp [ArrayCacheByTimestamp.append, h, hlt, (ne_of_lt hlt).symm]
    · intro hgt
      simp [ArrayCacheByTimestamp.append, h, ne_of_lt hgt, not_lt.mpr (le_of_lt hgt)]
  · intro cache x h1 hlen
    match hdata : cache.data.getLast? with
    | none =>
        have : cache.data = [] := List.getLast?_eq_none_iff.mp hdata
        simp [ArrayCacheByTimestamp.append, hdata, this, h1]
    | some last =>
        have hne : cache.data ≠ [] := by
          intro h0
          rw [h0] at hdata
          exact Option.noConfusion hdata
        have hpos : 0 < cache.data.length := List.length_pos.mpr hne
        by_cases heq : x.start = last.start
        · have hd : (cache.append x).data = cache.data.dropLast ++ [x] := by
            simp [ArrayCacheByTimestamp.append, hdata, heq]
          rw [hd]
          simp only [List.length_append, List.length_dropLast, List.length_singleton]
          omega
        · by_cases hlt : last.start < x.start
          · have hd : (cache.append x).data =
                if cache.maxSize < (cache.data ++ [x]).length then
                  (cache.data ++ [x]).tail
                else cache.data ++ [x] := by
              simp [ArrayCacheByTimestamp.append, hdata, hlt, heq]
            rw [hd]
            split
            · simp only [List.length_tail, List.length_append,
                List.length_singleton]
              omega
            · next hover =>
                simp only [List.length_append, List.length_singleton] at hover ⊢
                omega
          · have hgt : x.start < last.start :=
              lt_of_le_of_ne (not_lt.mp hlt) heq
            have hd : cache.append x = cache := by
              simp [ArrayCacheByTimestamp.append, hdata, heq,
                not_lt.mpr (le_of_lt hgt)]
            rw [hd]
            exact hlen

/-- Witness for C3: the theorem applied to a cache holding one candle at
T = 1000 with close 10 and an update at the same timestamp with close 12. -/
theorem ohlcv_append_replace_witness :
    (ArrayCacheByTimestamp.append ⟨1000, [⟨1000, 1, 2, 3, 10, 4⟩]⟩
        ⟨1000, 1, 2, 3, 12, 4⟩).data =
      List.dropLast [⟨1000, 1, 2, 3, 10, 4⟩] ++ [⟨1000, 1, 2, 3, 12, 4⟩] :=
  (ohlcv_append_replace.1 ⟨1000, [⟨1000, 1, 2, 3, 10, 4⟩]⟩
    ⟨1000, 1, 2, 3, 12, 4⟩ ⟨1000, 1, 2, 3, 10, 4⟩ (by decide)).1 (by decide)

/-- C4: for the bounded caches, appends never grow the retained data past
the configured limit, eviction removes the oldest entries (the retained data
is a suffix of the old data followed by the new entry, so relative order of
non-evicted entries is preserved); for the by-id caches an upsert either
replaces in place (keeping the key sequence) or appends with the same
eviction rule; with capacity 3, appending trades A, B, C, D leaves exactly
[B, C, D]. -/
theorem boundedCache_eviction :
    (∀ (c : ArrayCache String) (x : String),
        (c.data.length ≤ c.maxSize → (c.append x).data.length ≤ c.maxSize) ∧
        (c.append x).data <:+ c.data ++ [x]) ∧
    (∀ (c : ArrayCache String) (xs : List String),
        (handleTrades c xs).data <:+ c.data ++ xs) ∧
    (∀ (c : ArrayCacheById String) (k x : String),
        (c.data.length ≤ c.maxSize → (c.upsert k x).data.length ≤ c.maxSize) ∧
        ((c.upsert k x).data.map Prod.fst = c.data.map Prod.fst ∨
          (c.upsert k x).data <:+ c.data ++ [(k, x)])) ∧
    (handleTrades ⟨3, []⟩ ["A", "B", "C", "D"]).data = ["B", "C", "D"] := by
  have happend : ∀ (c : ArrayCache String) (x : String),
      (c.data.length ≤ c.maxSize → (c.append x).data.length ≤ c.maxSize) ∧
      (c.append x).data <:+ c.data ++ [x] := by
    intro c x
    constructor
    · intro hlen
      simp only [ArrayCache.append]
      split
      · simp only [List.length_tail, List.length_append, List.length_singleton]
        omega
      · next hover =>
          simp only [List.length_append, List.length_singleton] at hover ⊢
          omega
    · by_cases hover : c.maxSize < (c.data ++ [x]).length
      · simp only [ArrayCache.append, if_pos hover]
        exact (c.data ++ [x]).tail_suffix
      · simp only [ArrayCache.append, if_neg hover]
        exact List.suffix_refl _
  refine ⟨happend, ?_, ?_, by decide⟩
  · intro c xs
    induction xs generalizing c with
    | nil => simp [handleTrades]
    | cons x xs ih =>
        have h1 : (handleTrades (c.append x) xs).data <:+ (c.append x).data ++ xs :=
          ih (c.append x)
        have h2 : (c.append x).data ++ xs <:+ (c.data ++ [x]) ++ xs := by
          obtain ⟨t, ht⟩ := (happend c x).2
          exact ⟨t, by rw [← List.append_assoc, ht]⟩
        have : (handleTrades (c.append x) xs).data <:+ c.data ++ x :: xs := by
          have := h1.trans h2
          simpa using this
        simpa [handleTrades] using this
  · intro c k x
    by_cases hmem : (c.data.lookup k).isSome
    · constructor
      · intro hlen
        simpa [ArrayCacheById.upsert, hmem] using hlen
      · refine Or.inl ?_
        simp only [ArrayCacheById.upsert, if_pos hmem, List.map_map]
        apply List.map_congr_left
        intro p _
        by_cases hp : p.1 = k
        · simp [Function.comp, hp]
        · simp [Function.comp, hp]
    · constructor
      · intro hlen
        simp only [ArrayCacheById.upsert, if_neg hmem]
        split
        · simp only [List.length_tail, List.length_append, List.length_singleton]
          omega
        · next hover =>
            simp only [List.length_append, List.length_singleton] at hover ⊢
            omega
      · refine Or.inr ?_
        by_cases hover : c.maxSize < (c.data ++ [(k, x)]).length
        · simp only [ArrayCacheById.upsert, if_neg hmem, if_pos hover]
          exact (c.data ++ [(k, x)]).tail_suffix
        · simp only [ArrayCacheById.upsert, if_neg hmem, if_neg hover]
          exact List.suffix_refl _

/-- Witness for C4: the theorem applied to a full capacity-3 trade cache
holding A, B, C and the append of D. -/
theorem boundedCache_eviction_witness :
    (ArrayCache.append ⟨3, ["A", "B", "C"]⟩ "D").data.length ≤ 3 ∧
    (ArrayCache.append ⟨3, ["A", "B", "C"]⟩ "D").data <:+
      ["A", "B", "C"] ++ ["D"] :=
  ⟨(boundedCache_eviction.1 ⟨3, ["A", "B", "C"]⟩ "D").1 (by decide),
    (boundedCache_eviction.1 ⟨3, ["A", "B", "C"]⟩ "D").2⟩

theorem lookup_setBook_self (books : List (String × Book)) (symbol : String)
    (bk : Book) : (setBook books symbol bk).lookup symbol = some bk := by
  simp [setBook, List.lookup]

/-- C1 (amended): `handleOrderBook` performs no sequence-number
verification: its result is independent of the delta's `u` and `seq`
fields, and it always stores a book for the message's symbol — the book is
never invalidated and no snapshot is re-requested. -/
theorem handleOrderBook_ignores_sequence :
    (∀ (books : List (String × Book)) (msg : ObMessage)
        (u1 u2 seq1 seq2 : Option ℤ),
        handleOrderBook books { msg with u := u1, seq := seq1 } =
          handleOrderBook books { msg with u := u2, seq := seq2 }) ∧
    (∀ (books : List (String × Book)) (msg : ObMessage),
        ∃ bk : Book,
          (handleOrderBook books msg).lookup (safeSymbol msg.s) = some bk) := by
  constructor
  · intro books msg u1 u2 seq1 seq2
    cases msg
    rfl
  · intro books msg
    exact ⟨_, lookup_setBook_self books (safeSymbol msg.s) _⟩

/-- C1 counterexample: with the BTCUSDT book already streaming (state as
left after in-sequence deltas 1, 2, 3), the gapped delta numbered 5 is
silently merged: the stored book keeps its old levels plus the gapped
delta's level, and the book is not invalidated nor a snapshot requested. -/
theorem handleOrderBook_gap_merged :
    handleOrderBook
        [("BTCUSDT", { bids := [(100, 1)], asks := [(101, 1)],
                       timestamp := some 3, nonce := none })]
        { type := "delta", s := "BTCUSDT", b := [(98, 5)], a := [],
          ts := 5, u := some 5, seq := some 5 } =
      [("BTCUSDT", { bids := [(100, 1), (98, 5)], asks := [(101, 1)],
                     timestamp := some 5, nonce := none })] := by
  decide

/-- C5 (amended): a snapshot message discards all prior price levels of
both sides and rebuilds the stored book entirely from the snapshot's bid
and ask arrays (the result does not depend on the prior state), and
subsequent deltas are applied to this rebuilt state; however the snapshot's
sequence number is NOT recorded on the stored book — its nonce is left
unset. -/
theorem handleOrderBook_snapshot_rebuild (books books2 : List (String × Book))
    (msg : ObMessage) (hsnap : msg.type = "snapshot") :
    (handleOrderBook books msg).lookup (safeSymbol msg.s) =
      some (resetFromSnapshot msg) ∧
    (resetFromSnapshot msg).nonce = none ∧
    (handleOrderBook books msg).lookup (safeSymbol msg.s) =
      (handleOrderBook books2 msg).lookup (safeSymbol msg.s) ∧
    (∀ msg2 : ObMessage, msg2.type ≠ "snapshot" → msg2.s = msg.s →
        (handleOrderBook (handleOrderBook books msg) msg2).lookup
            (safeSymbol msg2.s) =
          some { resetFromSnapshot msg with
                   asks := handleDeltas asksStore (resetFromSnapshot msg).asks msg2.a
                   bids := handleDeltas bidsStore (resetFromSnapshot msg).bids msg2.b
                   timestamp := some msg2.ts }) := by
  have h1 : ∀ bs : List (String × Book),
      handleOrderBook bs msg = setBook bs (safeSymbol msg.s) (resetFromSnapshot msg) := by
    intro bs
    simp [handleOrderBook, hsnap]
  refine ⟨?_, rfl, ?_, ?_⟩
  · rw [h1]
    exact lookup_setBook_self _ _ _
  · rw [h1, h1]
    rw [lookup_setBook_self, lookup_setBook_self]
  · intro msg2 hd hsym
    rw [h1 books]
    simp only [handleOrderBook, if_neg hd, hsym, lookup_setBook_self,
      Option.getD_some]

/-- Witness for C5: the theorem applied to a concrete snapshot message and
a concrete follow-up delta. -/
theorem handleOrderBook_snapshot_rebuild_witness :
    (handleOrderBook
        [("X", { bids := [(7, 7)], asks := [], timestamp := none, nonce := some 1 })]
        { type := "snapshot", s := "X", b := [(2, 1)], a := [(3, 1)],
          ts := 9, u := none, seq := some 4 }).lookup "X" =
      some (resetFromSnapshot
        { type := "snapshot", s := "X", b := [(2, 1)], a := [(3, 1)],
          ts := 9, u := none, seq := some 4 }) :=
  (handleOrderBook_snapshot_rebuild
    [("X", { bids := [(7, 7)], asks := [], timestamp := none, nonce := some 1 })]
    []
    { type := "snapshot", s := "X", b := [(2, 1)], a := [(3, 1)],
      ts := 9, u := none, seq := some 4 } rfl).1

/-- C5 counterexample: a snapshot carrying sequence numbers
`u = 18521288`, `seq = 7961638724` rebuilds the book, but the stored book's
nonce is `none` — the snapshot's sequence number is not recorded (the prior
book's levels and nonce are discarded). -/
theorem handleOrderBook_snapshot_drops_sequence :
    handleOrderBook
        [("BTCUSDT", { bids := [(1, 1)], asks := [], timestamp := some 1,
                       nonce := some 7 })]
        { type := "snapshot", s := "BTCUSDT",
          b := [(16493, 6)], a := [(16611, 29)],
          ts := 1672304484978, u := some 18521288, seq := some 7961638724 } =
      [("BTCUSDT", { bids := [(16493, 6)], asks := [(16611, 29)],
                     timestamp := some 1672304484978, nonce := none })] := by
  decide

/-- C6 (amended): a delta-typed message arriving for a symbol with no
initialized book is neither buffered nor discarded: it is applied to a
freshly created empty order book, which is stored as the symbol's book. -/
theorem handleOrderBook_delta_uninitialized (books : List (String × Book))
    (msg : ObMessage) (hdelta : msg.type ≠ "snapshot")
    (hnone : books.lookup (safeSymbol msg.s) = none) :
    (handleOrderBook books msg).lookup (safeSymbol msg.s) =
      some { orderBook with
               asks := handleDeltas asksStore [] msg.a
               bids := handleDeltas bidsStore [] msg.b
               timestamp := some msg.ts } := by
  simp only [handleOrderBook, if_neg hdelta, hnone, Option.getD_none]
  exact lookup_setBook_self _ _ _

/-- Witness for C6: the theorem applied to the empty orderbooks map and a
concrete delta message. -/
theorem handleOrderBook_delta_uninitialized_witness :
    (handleOrderBook []
        { type := "delta", s := "BTCUSDT", b := [(100, 1)], a := [],
          ts := 1, u := some 2, seq := some 2 }).lookup "BTCUSDT" =
      some { orderBook with
               asks := handleDeltas asksStore []
                 (ObMessage.a { type := "delta", s := "BTCUSDT", b := [(100, 1)],
                                a := [], ts := 1, u := some 2, seq := some 2 })
               bids := handleDeltas bidsStore [] [(100, 1)]
               timestamp := some 1 } :=
  handleOrderBook_delta_uninitialized []
    { type := "delta", s := "BTCUSDT", b := [(100, 1)], a := [],
      ts := 1, u := some 2, seq := some 2 } (by decide) rfl

/-- C6 counterexample: the very first message for BTCUSDT is a delta (no
snapshot was ever received); it is applied as if an empty book were a valid
base state, yielding a stored book with the delta's level. -/
theorem handleOrderBook_applies_delta_without_snapshot :
    handleOrderBook []
        { type := "delta", s := "BTCUSDT", b := [(100, 1)], a := [],
          ts := 1, u := some 2, seq := some 2 } =
      [("BTCUSDT", { bids := [(100, 1)], asks := [], timestamp := some 1,
                     nonce := none })] := by
  decide

theorem lookup_filter_ne {α : Type} (k : String) :
    ∀ l : List (String × α), (l.filter (fun p => p.1 ≠ k)).lookup k = none := by
  intro l
  induction l with
  | nil => rfl
  | cons hd rest ih =>
      by_cases h : hd.1 = k
      · simpa [List.filter_cons, h] using ih
      · have hbeq : (k == hd.1) = false := beq_eq_false_iff_ne.mpr (Ne.symm h)
        simpa [List.filter_cons, h, List.lookup, hbeq] using ih

theorem authenticate_sends (cl : WsClient) (inp : AuthInput)
    (hs : "authenticated" ∉ cl.subscriptions) :
    (authenticate inp cl).1.sent =
      cl.sent ++ [Frame.auth inp.apiKey (toString (inp.milliseconds + 10000))
        (hmacHex ("GET/realtime" ++ toString (inp.milliseconds + 10000))
          inp.secret)] := by
  rcases hl : cl.futures.lookup "authenticated" with _ | fid <;>
    simp [authenticate, WsClient.future, watch, hl, hs]

/-- C7: `authenticate` is idempotent per connection: while no
`authenticated` entry exists in the subscriptions, the first call computes
the signature and sends exactly one auth frame; a second call made before
the login response sends nothing and returns the same shared pending
future, and a single success response resolves that shared future. -/
theorem authenticate_idempotent (cl : WsClient) (inp inp2 : AuthInput)
    (h : "authenticated" ∉ cl.subscriptions) :
    (authenticate inp2 (authenticate inp cl).1).2 = (authenticate inp cl).2 ∧
    (authenticate inp cl).1.sent =
      cl.sent ++ [Frame.auth inp.apiKey (toString (inp.milliseconds + 10000))
        (hmacHex ("GET/realtime" ++ toString (inp.milliseconds + 10000))
          inp.secret)] ∧
    (authenticate inp2 (authenticate inp cl).1).1.sent =
      (authenticate inp cl).1.sent ∧
    (∀ json : String,
        (handleAuthenticate (authenticate inp2 (authenticate inp cl).1).1
            { success := some true, json := json }).stateOf
            (authenticate inp cl).2 = some .resolvedTrue) := by
  rcases hl : cl.futures.lookup "authenticated" with _ | fid
  · simp [authenticate, WsClient.future, watch, hl, h, handleAuthenticate,
      WsClient.resolveTrue, WsClient.stateOf, List.lookup]
  · simp [authenticate, WsClient.future, watch, hl, h, handleAuthenticate,
      WsClient.resolveTrue, WsClient.stateOf, List.lookup]

/-- Witness for C7: the theorem applied to a fresh connection and two
back-to-back calls with the same credentials. -/
theorem authenticate_idempotent_witness :
    (authenticate ⟨"key", "sec", 5⟩
        (authenticate ⟨"key", "sec", 5⟩ ⟨[], [], [], 0, []⟩).1).2 =
      (authenticate ⟨"key", "sec", 5⟩ ⟨[], [], [], 0, []⟩).2 :=
  (authenticate_idempotent ⟨[], [], [], 0, []⟩ ⟨"key", "sec", 5⟩
    ⟨"key", "sec", 5⟩ (by decide)).1

/-- C8: a failed login response rejects the `authenticated` future with an
`AuthenticationError` (reaching every caller holding the shared future),
removes the cached `authenticated` entry from both the futures and the
subscriptions, and a later `authenticate` call retries by sending a new
login frame. -/
theorem handleAuthenticate_failure (cl : WsClient) (msg : AuthResponse)
    (fid : ℕ) (hfail : msg.success ≠ some true)
    (hfut : cl.futures.lookup "authenticated" = some fid) :
    (handleAuthenticate cl msg).stateOf fid =
      some (.rejected (.authenticationError ("bybit " ++ msg.json))) ∧
    "authenticated" ∉ (handleAuthenticate cl msg).subscriptions ∧
    (handleAuthenticate cl msg).futures.lookup "authenticated" = none ∧
    (∀ inp : AuthInput,
        (authenticate inp (handleAuthenticate cl msg)).1.sent =
          (handleAuthenticate cl msg).sent ++
            [Frame.auth inp.apiKey (toString (inp.milliseconds + 10000))
              (hmacHex ("GET/realtime" ++ toString (inp.milliseconds + 10000))
                inp.secret)]) := by
  have hh : handleAuthenticate cl msg =
      { cl with
          futures := cl.futures.filter (fun p => p.1 ≠ "authenticated")
          states := (fid, .rejected (.authenticationError ("bybit " ++ msg.json)))
            :: cl.states
          subscriptions := cl.subscriptions.filter (fun s => s ≠ "authenticated") } := by
    simp [handleAuthenticate, hfail, WsClient.reject, hfut]
  have hsub : "authenticated" ∉ (handleAuthenticate cl msg).subscriptions := by
    rw [hh]
    simp
  refine ⟨?_, hsub, ?_, ?_⟩
  · rw [hh]
    simp [WsClient.stateOf, List.lookup]
  · rw [hh]
    exact lookup_filter_ne "authenticated" cl.futures
  · intro inp
    exact authenticate_sends (handleAuthenticate cl msg) inp hsub

/-- Witness for C8: the theorem applied to a connection whose only cached
entry is a pending `authenticated` future, and a concrete failure
response. -/
theorem handleAuthenticate_failure_witness :
    (handleAuthenticate
        ⟨["authenticated"], [("authenticated", 0)], [(0, .pending)], 1, []⟩
        { success := some false, json := "{}" }).stateOf 0 =
      some (.rejected (.authenticationError "bybit {}")) :=
  (handleAuthenticate_failure
    ⟨["authenticated"], [("authenticated", 0)], [(0, .pending)], 1, []⟩
    { success := some false, json := "{}" } 0 (by decide) rfl).1

/-- C9 (amended): `handleErrorMessage` does not scope a subscribe-request
error to that request's waiters: every decoded non-authentication error is
broadcast — `client.reject (error)` with no message hash rejects every
pending future on the connection — while a decoded `AuthenticationError` is
delivered to the `authenticated` hash only. -/
theorem handleErrorMessage_broadcast (exact : String → Option ErrClass)
    (cl : WsClient) (msg : ErrMessage) (e : WsError)
    (hdec : decodeError exact msg = some e) :
    (e.isAuthentication = false →
        handleErrorMessage exact cl msg = (cl.rejectAll e, true)) ∧
    (e.isAuthentication = true →
        handleErrorMessage exact cl msg =
          ({ cl.reject e "authenticated" with
               subscriptions :=
                 (cl.reject e "authenticated").subscriptions.filter
                   (fun s => s ≠ "authenticated") }, true)) := by
  constructor <;> intro hauth <;> simp [handleErrorMessage, hdec, hauth]

/-- Witness for C9's amended theorem: the broadcast branch applied to a
connection with two unrelated pending futures and the documented
`error:invalid op` response. -/
theorem handleErrorMessage_broadcast_witness :
    handleErrorMessage (fun _ => none)
        ⟨["orderbook.50.BTCUSDT", "publicTrade.ETHUSDT"],
         [("orderbook:BTC/USDT", 0), ("trade:ETH/USDT", 1)],
         [(0, .pending), (1, .pending)], 2, []⟩
        { code := none, success := some false,
          ret_msg := some "error:invalid op", requestOp := some "",
          json := "{}" } =
      (WsClient.rejectAll
        ⟨["orderbook.50.BTCUSDT", "publicTrade.ETHUSDT"],
         [("orderbook:BTC/USDT", 0), ("trade:ETH/USDT", 1)],
         [(0, .pending), (1, .pending)], 2, []⟩
        (.exchangeError "bybit error:invalid op"), true) :=
  (handleErrorMessage_broadcast (fun _ => none)
    ⟨["orderbook.50.BTCUSDT", "publicTrade.ETHUSDT"],
     [("orderbook:BTC/USDT", 0), ("trade:ETH/USDT", 1)],
     [(0, .pending), (1, .pending)], 2, []⟩
    { code := none, success := some false,
      ret_msg := some "error:invalid op", requestOp := some "",
      json := "{}" }
    (.exchangeError "bybit error:invalid op") rfl).1 rfl

/-- C9 counterexample: an error response tied to a non-auth request
(`success: false`, echoed request `op: ""`) rejects the pending future of
an unrelated message hash (`trade:ETH/USDT`, future id 1) on the same
connection, contradicting delivery "only to the waiters of that specific
request's pending future". -/
theorem handleErrorMessage_rejects_unrelated :
    ((handleErrorMessage (fun _ => none)
        ⟨["orderbook.50.BTCUSDT", "publicTrade.ETHUSDT"],
         [("orderbook:BTC/USDT", 0), ("trade:ETH/USDT", 1)],
         [(0, .pending), (1, .pending)], 2, []⟩
        { code := none, success := some false,
          ret_msg := some "error:invalid op", requestOp := some "",
          json := "{}" }).1).stateOf 1 =
      some (.rejected (.exchangeError "bybit error:invalid op")) := by
  decide

/-- C10: in hitbtc's `watchOrderBook`, the `{speed}` component of the
constructed channel name is taken from `params['depth']` with default
`'100'`; `params['speed']` is never read, so the name is invariant under
changes to the `speed` entry, a call that specifies only a speed subscribes
to the default 100ms channel, and a supplied `depth` drives both
components. -/
theorem watchOrderBook_speed_from_depth :
    (∀ (om : Option String) (params : ObParams) (s : Option String),
        watchOrderBookChannelName om { params with speed := s } =
          watchOrderBookChannelName om params) ∧
    watchOrderBookChannelName (some "orderbook/full")
        { method := some "orderbook/{depth}/{speed}", defaultMethod := none,
          depth := none, speed := some "500" } = "orderbook/D20/100ms" ∧
    watchOrderBookChannelName (some "orderbook/full")
        { method := some "orderbook/{depth}/{speed}", defaultMethod := none,
          depth := some "5", speed := none } = "orderbook/D5/5ms" := by
  refine ⟨?_, by decide, by decide⟩
  intro om params s
  cases params
  rfl

end CcxtPro
